import Mathlib

/-!
Shallow embedding of the rdhcp DHCPv4/BOOTP codec (src/packet.rs, src/options.rs,
src/lib.rs).  Byte buffers are `List Nat` whose elements are intended to be < 256;
machine-integer casts are modelled with explicit `% 2 ^ w`.  Fallible Rust
functions returning `Result` are modelled with `Except String`, keeping the
source's error strings; `Option` models Rust `Option`.
-/

set_option maxRecDepth 10000
set_option maxHeartbeats 2000000

deriving instance DecidableEq for Except

namespace RDHCP

/-- `pub const DHCP_COOKIE: [u8; 4] = [99, 130, 83, 99];` (src/packet.rs). -/
def DHCP_COOKIE : List Nat := [99, 130, 83, 99]

/-- `enum OpCode { BootRequest = 1, BootReply = 2 }` (src/packet.rs). -/
inductive OpCode where
  | BootRequest
  | BootReply
  deriving DecidableEq, Repr

/-- The `repr(u8)` discriminant of an `OpCode`, used by `packet.opcode as u8`. -/
def OpCode.toU8 : OpCode → Nat
  | .BootRequest => 1
  | .BootReply => 2

/-- `impl TryFrom<u8> for OpCode` (src/packet.rs). -/
def OpCode.tryFrom (code : Nat) : Except String OpCode :=
  match code with
  | 1 => .ok .BootRequest
  | 2 => .ok .BootReply
  | _ => .error "opcode out of range"

/-- `enum HardwareType { Ethernet = 1 }` (src/packet.rs). -/
inductive HardwareType where
  | Ethernet
  deriving DecidableEq, Repr

/-- The `repr(u8)` discriminant of a `HardwareType`. -/
def HardwareType.toU8 : HardwareType → Nat
  | .Ethernet => 1

/-- `impl TryFrom<u8> for HardwareType` (src/packet.rs). -/
def HardwareType.tryFrom (htype : Nat) : Except String HardwareType :=
  match htype with
  | 1 => .ok .Ethernet
  | _ => .error "hardware type out of range"

/-- `enum MessageType` (src/options.rs): nine variants, `Unknown = 255`. -/
inductive MessageType where
  | Discover
  | Offer
  | Request
  | Decline
  | ACK
  | NAK
  | Release
  | Inform
  | Unknown
  deriving DecidableEq, Repr

/-- `impl TryFrom<u8> for MessageType` (src/options.rs): bytes 1..8 map to the
eight real variants; every other byte is `Err("message type out of range")`.
Note the `Unknown` variant is never produced by this function. -/
def MessageType.tryFrom (code : Nat) : Except String MessageType :=
  match code with
  | 1 => .ok .Discover
  | 2 => .ok .Offer
  | 3 => .ok .Request
  | 4 => .ok .Decline
  | 5 => .ok .ACK
  | 6 => .ok .NAK
  | 7 => .ok .Release
  | 8 => .ok .Inform
  | _ => .error "message type out of range"

/-- `impl TryFrom<u8> for OptionCode` (src/options.rs).  The Rust enum is
`repr(u8)` with discriminant equal to the wire byte, so we represent a
recognized `OptionCode` by its wire byte value: each arm of the Rust match
`n => Ok(OptionCode::X)` with `X = n` becomes `n => .ok n`. -/
def OptionCode.tryFrom (code : Nat) : Except String Nat :=
  match code with
  | 255 => .ok 255
  | 0 => .ok 0
  | 1 => .ok 1
  | 2 => .ok 2
  | 3 => .ok 3
  | 4 => .ok 4
  | 5 => .ok 5
  | 6 => .ok 6
  | 7 => .ok 7
  | 8 => .ok 8
  | 9 => .ok 9
  | 10 => .ok 10
  | 11 => .ok 11
  | 12 => .ok 12
  | 13 => .ok 13
  | 14 => .ok 14
  | 15 => .ok 15
  | 16 => .ok 16
  | 17 => .ok 17
  | 18 => .ok 18
  | 19 => .ok 19
  | 20 => .ok 20
  | 21 => .ok 21
  | 22 => .ok 22
  | 23 => .ok 23
  | 24 => .ok 24
  | 25 => .ok 25
  | 26 => .ok 26
  | 27 => .ok 27
  | 28 => .ok 28
  | 29 => .ok 29
  | 30 => .ok 30
  | 31 => .ok 31
  | 32 => .ok 32
  | 33 => .ok 33
  | 34 => .ok 34
  | 35 => .ok 35
  | 36 => .ok 36
  | 37 => .ok 37
  | 38 => .ok 38
  | 39 => .ok 39
  | 40 => .ok 40
  | 41 => .ok 41
  | 42 => .ok 42
  | 43 => .ok 43
  | 44 => .ok 44
  | 45 => .ok 45
  | 46 => .ok 46
  | 47 => .ok 47
  | 48 => .ok 48
  | 49 => .ok 49
  | 64 => .ok 64
  | 65 => .ok 65
  | 68 => .ok 68
  | 69 => .ok 69
  | 70 => .ok 70
  | 71 => .ok 71
  | 72 => .ok 72
  | 73 => .ok 73
  | 74 => .ok 74
  | 75 => .ok 75
  | 76 => .ok 76
  | 82 => .ok 82
  | 50 => .ok 50
  | 51 => .ok 51
  | 52 => .ok 52
  | 53 => .ok 53
  | 54 => .ok 54
  | 55 => .ok 55
  | 56 => .ok 56
  | 57 => .ok 57
  | 58 => .ok 58
  | 59 => .ok 59
  | 60 => .ok 60
  | 61 => .ok 61
  | 66 => .ok 66
  | 67 => .ok 67
  | 77 => .ok 77
  | 93 => .ok 93
  | 100 => .ok 100
  | 101 => .ok 101
  | 121 => .ok 121
  | _ => .error "option code out of range"

/-- `type Options = HashMap<OptionCode, Vec<u8>>` (src/packet.rs), modelled as an
association list with unique keys; `OptionCode` keys are wire byte values. -/
abbrev Options := List (Nat × List Nat)

/-- `HashMap::insert`: overwrites the value of an existing key ("last occurrence
wins"), otherwise adds a new entry. -/
def Options.insert (m : Options) (k : Nat) (v : List Nat) : Options :=
  if m.any (fun p => p.1 = k) then m.map (fun p => if p.1 = k then (k, v) else p)
  else m ++ [(k, v)]

/-- `HashMap::get`: look up the value stored under key `k`. -/
def Options.get (m : Options) (k : Nat) : Option (List Nat) :=
  (m.find? (fun p => p.1 = k)).map (fun p => p.2)

/-- The `while option_bytes.len() >= 2` loop of `Packet::parse_options`
(src/packet.rs lines 85-107), with `option_bytes` as an explicit argument and
the accumulated map `m` threaded through.  Every iteration of the Rust loop
consumes at least one byte, so running it with `bytes.length` units of fuel
computes the loop exactly; the fuel only makes the recursion structural. -/
def parseOptionsLoop : Nat → List Nat → Options → Options
  | 0, _, m => m
  | fuel + 1, bytes, m =>
    if bytes.length < 2 then m
    else
      match OptionCode.tryFrom (bytes.getD 0 0) with
      | .error _ => m
      | .ok code =>
        if code = 255 then m
        else if code = 0 then parseOptionsLoop fuel (bytes.drop 1) m
        else
          let size := bytes.getD 1 0
          if bytes.length < size + 2 then m
          else
            parseOptionsLoop fuel (bytes.drop (2 + size))
              (Options.insert m code ((bytes.drop 2).take size))

/-- `Packet::parse_options(src)` (src/packet.rs lines 75-110): empty map when the
buffer has no option region, otherwise scan `src[240..]`. -/
def Packet.parse_options (src : List Nat) : Options :=
  if src.length ≤ 240 then []
  else parseOptionsLoop (src.drop 240).length (src.drop 240) []

/-- `std::net::Ipv4Addr`, as its four octets. -/
structure Ipv4Addr where
  o0 : Nat
  o1 : Nat
  o2 : Nat
  o3 : Nat
  deriving DecidableEq, Repr

/-- `Ipv4Addr::octets`. -/
def Ipv4Addr.octets (a : Ipv4Addr) : List Nat := [a.o0, a.o1, a.o2, a.o3]

/-- `Ipv4Addr::is_unspecified`: all four octets are zero. -/
def Ipv4Addr.is_unspecified (a : Ipv4Addr) : Bool :=
  (a.o0 == 0) && (a.o1 == 0) && (a.o2 == 0) && (a.o3 == 0)

/-- `Ipv4Addr::BROADCAST` = 255.255.255.255. -/
def Ipv4Addr.BROADCAST : Ipv4Addr := ⟨255, 255, 255, 255⟩

/-- `fn bytes_to_ip_addr(bytes: &[u8]) -> Ipv4Addr` (src/packet.rs):
`Ipv4Addr::new(bytes[0], bytes[1], bytes[2], bytes[3])`. -/
def bytes_to_ip_addr (bytes : List Nat) : Ipv4Addr :=
  ⟨bytes.getD 0 0, bytes.getD 1 0, bytes.getD 2 0, bytes.getD 3 0⟩

/-- `pub struct HardwareAddr([u8; 6])` (src/packet.rs). -/
structure HardwareAddr where
  b0 : Nat
  b1 : Nat
  b2 : Nat
  b3 : Nat
  b4 : Nat
  b5 : Nat
  deriving DecidableEq, Repr

/-- `HardwareAddr::octets`. -/
def HardwareAddr.octets (a : HardwareAddr) : List Nat :=
  [a.b0, a.b1, a.b2, a.b3, a.b4, a.b5]

/-- `impl From<&[u8]> for HardwareAddr`:
`HardwareAddr([value[0], value[1], value[2], value[3], value[4], value[5]])`. -/
def HardwareAddr.ofSlice (value : List Nat) : HardwareAddr :=
  ⟨value.getD 0 0, value.getD 1 0, value.getD 2 0,
   value.getD 3 0, value.getD 4 0, value.getD 5 0⟩

/-- `fn bytes_to_u32(bytes: &[u8]) -> u32` (src/packet.rs). -/
def bytes_to_u32 (bytes : List Nat) : Nat :=
  if bytes.length = 4 then
    ((bytes.getD 0 0) <<< 24) ||| ((bytes.getD 1 0) <<< 16) |||
      ((bytes.getD 2 0) <<< 8) ||| bytes.getD 3 0
  else 0

/-- `fn u32_to_bytes(v: u32) -> [u8; 4]` (src/packet.rs); the `as u8` casts are
`% 256`. -/
def u32_to_bytes (v : Nat) : List Nat :=
  [(v >>> 24) % 256, (v >>> 16) % 256, (v >>> 8) % 256, v % 256]

/-- `fn trim_null(bytes: &[u8]) -> Vec<u8>` (src/packet.rs): keep bytes up to
(excluding) the first zero byte. -/
def trim_null (bytes : List Nat) : List Nat :=
  bytes.takeWhile (fun b => b ≠ 0)

/-- `pub struct Packet` (src/packet.rs).  Field types follow the Rust struct;
all integer fields are `Nat` standing for `u8`/`u16`/`u32` values. -/
structure Packet where
  opcode : OpCode
  htype : HardwareType
  hlen : Nat
  hops : Nat
  xid : Nat
  secs : Nat
  flags : Nat
  ciaddr : Ipv4Addr
  yiaddr : Ipv4Addr
  siaddr : Ipv4Addr
  giaddr : Ipv4Addr
  chaddr : HardwareAddr
  sname : List Nat
  file : List Nat
  cookie : List Nat
  options : Options
  deriving DecidableEq, Repr

/-- `impl TryFrom<&[u8]> for Packet` (src/packet.rs lines 34-72): length check,
cookie check, hlen check, then field extraction at fixed offsets. -/
def Packet.tryFrom (src : List Nat) : Except String Packet :=
  if src.length < 240 then .error "packet too small"
  else if (src.drop 236).take 4 ≠ DHCP_COOKIE then .error "DHCP cookie invalid"
  else if src.getD 2 0 ≠ 6 then .error "hardware addresses must be 6 bytes"
  else
    match OpCode.tryFrom (src.getD 0 0) with
    | .error e => .error e
    | .ok opcode =>
      match HardwareType.tryFrom (src.getD 1 0) with
      | .error e => .error e
      | .ok htype =>
        .ok {
          opcode := opcode
          htype := htype
          hlen := src.getD 2 0
          hops := src.getD 3 0
          xid := bytes_to_u32 ((src.drop 4).take 4)
          secs := ((src.getD 8 0) <<< 8) ||| src.getD 9 0
          flags := ((src.getD 10 0) <<< 8) ||| src.getD 11 0
          ciaddr := bytes_to_ip_addr ((src.drop 12).take 4)
          yiaddr := bytes_to_ip_addr ((src.drop 16).take 4)
          siaddr := bytes_to_ip_addr ((src.drop 20).take 4)
          giaddr := bytes_to_ip_addr ((src.drop 24).take 4)
          chaddr := HardwareAddr.ofSlice ((src.drop 28).take 6)
          sname := trim_null ((src.drop 44).take 64)
          file := trim_null ((src.drop 108).take 128)
          cookie := (src.drop 236).take 4
          options := Packet.parse_options src }

/-- `Packet::broadcast_flag` (src/packet.rs): `(self.flags >> 8) > 127`. -/
def Packet.broadcast_flag (p : Packet) : Bool :=
  (p.flags >>> 8) > 127

/-- `Packet::message_type` (src/packet.rs lines 124-137). -/
def Packet.message_type (p : Packet) : Option MessageType :=
  match Options.get p.options 53 with
  | some mtype =>
    if mtype.isEmpty then none
    else
      match MessageType.tryFrom (mtype.getD 0 0) with
      | .ok mt => some mt
      | .error _ => none
  | none => none

/-- `fn format_options(options: &Options) -> Vec<u8>` (src/packet.rs lines
174-184): per entry, push the code byte, the payload length cast to `u8`
(`% 256`), then the payload bytes.  The map is iterated in list order. -/
def format_options : Options → List Nat
  | [] => []
  | (code, value) :: rest => code :: (value.length % 256) :: (value ++ format_options rest)

/-- `v[i..i + xs.len()].copy_from_slice(&xs)` / the indexed write loops of the
encoder: overwrite `v` starting at index `i` with the bytes of `xs`. -/
def setRange (v : List Nat) (i : Nat) : List Nat → List Nat
  | [] => v
  | b :: rest => setRange (v.set i b) (i + 1) rest

/-- `impl From<&Packet> for Vec<u8>` (src/packet.rs lines 140-172): start from
`vec![0; 240]`, write each field at its offset (hops at 3 and secs at 8..10 are
never written and stay zero), then append the formatted options.  The
`sname`/`file` loops write `take 64` / `take 128` bytes at offsets 44 / 108. -/
def packetToBytes (packet : Packet) : List Nat :=
  let v := List.replicate 240 0
  let v := v.set 0 packet.opcode.toU8
  let v := v.set 1 packet.htype.toU8
  let v := v.set 2 packet.hlen
  let v := setRange v 4 (u32_to_bytes packet.xid)
  let v := v.set 10 ((packet.flags >>> 8) % 256)
  let v := v.set 11 (packet.flags % 256)
  let v := setRange v 12 packet.ciaddr.octets
  let v := setRange v 16 packet.yiaddr.octets
  let v := setRange v 20 packet.siaddr.octets
  let v := setRange v 24 packet.giaddr.octets
  let v := setRange v 28 packet.chaddr.octets
  let v := setRange v 44 (packet.sname.take 64)
  let v := setRange v 108 (packet.file.take 128)
  let v := setRange v 236 DHCP_COOKIE
  v ++ format_options packet.options

/-- `std::net::SocketAddr` restricted to IPv4 (the server binds an IPv4 UDP
socket; only `ip()`, `port()` and `is_unspecified()` are consumed). -/
structure SocketAddr where
  ip : Ipv4Addr
  port : Nat
  deriving DecidableEq, Repr

/-- `fn process_packet` (src/lib.rs lines 55-79), with the externally supplied
handler's result passed in as `reply` (`handler.handle_packet(src_packet)`).
Returns the encoded bytes and destination of the datagram that is sent, or
`none` when the handler produced no reply.  -/
def process_packet (src_packet : Packet) (src : SocketAddr) (reply : Option Packet) :
    Option (List Nat × SocketAddr) :=
  let src_broadcast := src_packet.broadcast_flag
  let src_has_giaddr := !src_packet.giaddr.is_unspecified
  match reply with
  | some p =>
    let data := packetToBytes p
    if !src_has_giaddr && (src.ip.is_unspecified || src_broadcast) then
      some (data, ⟨Ipv4Addr.BROADCAST, src.port⟩)
    else
      some (data, src)
  | none => none

/-- Hex digit value, as used by `u8::from_str_radix(_, 16)`. -/
def hexDigitVal (c : Char) : Option Nat :=
  if 48 ≤ c.toNat ∧ c.toNat ≤ 57 then some (c.toNat - 48)
  else if 97 ≤ c.toNat ∧ c.toNat ≤ 102 then some (c.toNat - 87)
  else if 65 ≤ c.toNat ∧ c.toNat ≤ 70 then some (c.toNat - 55)
  else none

/-- Accumulate the value of a hex digit string; `none` on the first non-digit. -/
def hexListVal : List Char → Nat → Option Nat
  | [], acc => some acc
  | c :: rest, acc =>
    match hexDigitVal c with
    | none => none
    | some d => hexListVal rest (acc * 16 + d)

/-- `u8::from_str_radix(s, 16)`: an optional leading `+`, then a non-empty
run of hex digits; errors on an empty digit run, a non-digit, or a value
that overflows `u8`. -/
def u8_from_str_radix16 (s : List Char) : Option Nat :=
  let digits := if s.head? = some '+' then s.drop 1 else s
  if digits.isEmpty then none
  else
    match hexListVal digits 0 with
    | none => none
    | some v => if v < 256 then some v else none

/-- The `for (i, byte) in value.split(..).enumerate()` loop of
`HardwareAddr::from_str` (src/packet.rs lines 287-303): with more than 6
segments, `u8::from_str_radix("error", 10)?` fails before any further write;
otherwise each parsed segment byte is written at index `i`. -/
def fromStrLoop : List (List Char) → Nat → List Nat → Option (List Nat)
  | [], _, result => some result
  | s :: rest, i, result =>
    if i > 5 then none
    else
      match u8_from_str_radix16 s with
      | none => none
      | some b => fromStrLoop rest (i + 1) (result.set i b)

/-- `str::split` with a character predicate: maximal runs between separator
characters, keeping empty segments (so `""` yields one empty segment and a
trailing separator yields a trailing empty segment), as Rust's `split` does. -/
def splitSep : List Char → (Char → Bool) → List (List Char)
  | [], _ => [[]]
  | c :: rest, p =>
    if p c then [] :: splitSep rest p
    else
      match splitSep rest p with
      | seg :: more => (c :: seg) :: more
      | [] => [[c]]

/-- `impl FromStr for HardwareAddr` (src/packet.rs lines 287-303): split the
input on `:` or `-`, parse each segment as a hex byte into a zero-initialised
6-byte array.  The `&str` input is modelled as its character list. -/
def HardwareAddr.from_str (value : List Char) : Option HardwareAddr :=
  (fromStrLoop (splitSep value (fun c => c == ':' || c == '-'))
      0 (List.replicate 6 0)).map HardwareAddr.ofSlice

/-! ### Concrete fixtures used to instantiate the theorems below -/

/-- A packet with every field zero / minimal, used as a base for examples. -/
def zeroPacket : Packet where
  opcode := .BootRequest
  htype := .Ethernet
  hlen := 6
  hops := 0
  xid := 0
  secs := 0
  flags := 0
  ciaddr := ⟨0, 0, 0, 0⟩
  yiaddr := ⟨0, 0, 0, 0⟩
  siaddr := ⟨0, 0, 0, 0⟩
  giaddr := ⟨0, 0, 0, 0⟩
  chaddr := ⟨0, 0, 0, 0, 0, 0⟩
  sname := []
  file := []
  cookie := DHCP_COOKIE
  options := []

/-- A packet carrying a DHCPMessageType option with payload byte 1 (Discover). -/
def mtPacket : Packet := { zeroPacket with options := [(53, [1])] }

/-- A request packet with the broadcast bit set and no giaddr. -/
def broadcastReqPacket : Packet := { zeroPacket with flags := 32768 }

/-- A relayed request packet: giaddr set, broadcast bit clear. -/
def relayedReqPacket : Packet := { zeroPacket with giaddr := ⟨10, 0, 0, 254⟩ }

/-- An ordinary client source address. -/
def clientAddr : SocketAddr := ⟨⟨10, 0, 0, 1⟩, 68⟩

/-- A minimal valid 240-byte wire message: opcode 1, htype 1, hlen 6, cookie. -/
def minimalBuf : List Nat := (1 :: 1 :: 6 :: List.replicate 233 0) ++ DHCP_COOKIE

/-- `minimalBuf` followed by a single well-formed option `[53, 1, 5]`. -/
def oneOptionBuf : List Nat := minimalBuf ++ [53, 1, 5]

/-- A 240-byte message that is valid except that `hlen` (byte 2) is 0. -/
def hlenBuf : List Nat := (1 :: 1 :: 0 :: List.replicate 233 0) ++ DHCP_COOKIE

/-- A valid 240-byte message whose `chaddr` window carries a nonzero byte at
offset 34, i.e. inside the 16-byte `chaddr` field but beyond the 6 bytes the
decoder retains. -/
def chaddrTailBuf : List Nat :=
  (1 :: 1 :: 6 :: List.replicate 31 0) ++ 7 :: (List.replicate 201 0 ++ DHCP_COOKIE)

/-! ### Helper lemmas about lists and machine arithmetic -/

theorem getD_set (l : List Nat) (i j x : Nat) :
    (l.set i x).getD j 0 = if i = j ∧ i < l.length then x else l.getD j 0 := by
  simp only [List.getD_eq_getElem?_getD, List.getElem?_set]
  by_cases h1 : i = j
  · subst h1
    by_cases h2 : i < l.length
    · simp [h2]
    · have hn : l[i]? = none := List.getElem?_eq_none (by omega)
      simp [h2, hn]
  · simp [h1]

theorem setRange_length (xs v : List Nat) (i : Nat) :
    (setRange v i xs).length = v.length := by
  induction xs generalizing v i with
  | nil => rfl
  | cons b rest ih => simp [setRange, ih]

theorem setRange_getD (xs v : List Nat) (i j : Nat) :
    (setRange v i xs).getD j 0 =
      if i ≤ j ∧ j < i + xs.length ∧ j < v.length then xs.getD (j - i) 0
      else v.getD j 0 := by
  induction xs generalizing v i with
  | nil =>
    simp only [setRange, List.length_nil, Nat.add_zero]
    rw [if_neg (by omega)]
  | cons b rest ih =>
    simp only [setRange]
    rw [ih, getD_set]
    simp only [List.length_set, List.length_cons]
    by_cases hj : j = i
    · subst hj
      by_cases hl : j < v.length <;> simp [hl]
    · by_cases hin : i + 1 ≤ j ∧ j < i + 1 + rest.length ∧ j < v.length
      · rw [if_pos hin, if_pos (by omega)]
        have hk : j - i = (j - (i + 1)) + 1 := by omega
        rw [hk, List.getD_cons_succ]
      · rw [if_neg hin, if_neg (by omega), if_neg (by omega)]

theorem replicate_getD (n j : Nat) : (List.replicate n (0 : Nat)).getD j 0 = 0 := by
  simp only [List.getD_eq_getElem?_getD, List.getElem?_replicate]
  split <;> simp

theorem slice_getD (l : List Nat) (k n m : Nat) :
    ((l.drop k).take n).getD m 0 = if m < n then l.getD (k + m) 0 else 0 := by
  simp only [List.getD_eq_getElem?_getD, List.getElem?_take, List.getElem?_drop]
  split <;> simp

theorem getD_mem (l : List Nat) (i : Nat) (h : i < l.length) : l.getD i 0 ∈ l := by
  simp only [List.getD_eq_getElem?_getD, List.getElem?_eq_getElem h, Option.getD_some]
  exact List.getElem_mem h

theorem slice_length (l : List Nat) (k n : Nat) (h : k + n ≤ l.length) :
    ((l.drop k).take n).length = n := by
  simp only [List.length_take, List.length_drop]
  omega

/-- Bitwise or of values with disjoint bit ranges is addition. -/
theorem lor_eq_add (a b n : Nat) (hd : 2 ^ n ∣ a) (hb : b < 2 ^ n) :
    a ||| b = a + b := by
  obtain ⟨k, rfl⟩ := hd
  apply Nat.eq_of_testBit_eq
  intro i
  rw [Nat.testBit_or, Nat.testBit_mul_pow_two_add k hb, Nat.testBit_mul_pow_two]
  by_cases hi : i < n
  · have : ¬ i ≥ n := by omega
    simp [hi, this]
  · have hbf : b.testBit i = false :=
      Nat.testBit_lt_two_pow (lt_of_lt_of_le hb (Nat.pow_le_pow_right (by omega) (by omega)))
    have : i ≥ n := by omega
    simp [hi, this, hbf]

/-- Big-endian `u16` reassembly/extraction, as performed by the decoder
(`(hi << 8) | lo`) and the encoder (`>> 8` and `as u8`). -/
theorem u16_parts (hi lo : Nat) (hh : hi < 256) (hl : lo < 256) :
    ((hi <<< 8 ||| lo) >>> 8) % 256 = hi ∧ (hi <<< 8 ||| lo) % 256 = lo := by
  have he : hi <<< 8 ||| lo = hi * 256 + lo := by
    rw [Nat.shiftLeft_eq, lor_eq_add _ _ 8 ⟨hi, by ring⟩ hl]
  rw [he, Nat.shiftRight_eq_div_pow]
  have h8 : (2 : Nat) ^ 8 = 256 := rfl
  rw [h8]
  constructor
  · omega
  · omega

/-- Round trip of the 4-byte big-endian transaction id through
`bytes_to_u32` then `u32_to_bytes`. -/
theorem u32_roundtrip (s : List Nat) (h : s.length = 4) (hb : ∀ x ∈ s, x < 256) :
    u32_to_bytes (bytes_to_u32 s) = s := by
  match s, h with
  | [a, b, c, d], _ =>
    have ha : a < 256 := hb a (by simp)
    have hb' : b < 256 := hb b (by simp)
    have hc : c < 256 := hb c (by simp)
    have hd : d < 256 := hb d (by simp)
    have he : bytes_to_u32 [a, b, c, d] = ((a * 256 + b) * 256 + c) * 256 + d := by
      simp only [bytes_to_u32, List.length_cons, List.length_nil, if_pos rfl]
      simp only [List.getD_cons_zero, List.getD_cons_succ]
      rw [lor_eq_add (a <<< 24) (b <<< 16) 24 ⟨a, by rw [Nat.shiftLeft_eq]; ring⟩
          (by rw [Nat.shiftLeft_eq]; norm_num; omega),
        lor_eq_add (a <<< 24 + b <<< 16) (c <<< 8) 16
          ⟨a * 256 + b, by rw [Nat.shiftLeft_eq, Nat.shiftLeft_eq]; ring⟩
          (by rw [Nat.shiftLeft_eq]; norm_num; omega),
        lor_eq_add (a <<< 24 + b <<< 16 + c <<< 8) d 8
          ⟨a * 65536 + b * 256 + c,
            by rw [Nat.shiftLeft_eq, Nat.shiftLeft_eq, Nat.shiftLeft_eq]; ring⟩
          (by omega)]
      simp only [Nat.shiftLeft_eq]
      norm_num
      ring
    rw [he]
    simp only [u32_to_bytes, Nat.shiftRight_eq_div_pow]
    norm_num
    refine ⟨by omega, by omega, by omega, by omega⟩

/-- Bytes of a NUL-trimmed window agree with the window before the first NUL. -/
theorem takeWhile_getD (w : List Nat) (m : Nat) (hm : m < w.length)
    (h : ∀ j, j ≤ m → w.getD j 0 ≠ 0) :
    (w.takeWhile (fun b => b ≠ 0)).getD m 0 = w.getD m 0 := by
  induction w generalizing m with
  | nil => simp at hm
  | cons x rest ih =>
    have hx : x ≠ 0 := by have := h 0 (by omega); simpa using this
    rw [List.takeWhile_cons_of_pos (by simpa using hx)]
    match m with
    | 0 => simp
    | m + 1 =>
      simp only [List.getD_cons_succ]
      exact ih m (by simpa using hm) (fun j hj => by
        have := h (j + 1) (by omega)
        simpa using this)

/-- Shared helper: `MessageType::try_from` fails on every byte outside 1..8. -/
theorem messageType_tryFrom_err (b : Nat) (h : b < 1 ∨ 8 < b) :
    MessageType.tryFrom b = .error "message type out of range" := by
  rcases b with _|_|_|_|_|_|_|_|_|n
  · rfl
  all_goals first
    | (exfalso; omega)
    | rfl

/-! ### Claim theorems -/

/-- C3: for every option-region byte sequence, when the scan reads a code byte
that does not map to a known OptionCode, option parsing stops entirely: the
accumulated mapping is returned unchanged, so no later byte contributes an
entry, whatever follows. -/
theorem parse_stops_on_unknown_code (fuel c : Nat) (rest : List Nat) (m : Options)
    (h : OptionCode.tryFrom c = .error "option code out of range") :
    parseOptionsLoop fuel (c :: rest) m = m := by
  cases fuel with
  | zero => rfl
  | succ f =>
    simp only [parseOptionsLoop, List.getD_cons_zero, h]
    split <;> rfl

/-- Witness for C3 at fuel 6, unknown code 200, with a suffix that on its own
would parse as a valid SubnetMask option. -/
theorem parse_stops_on_unknown_code_witness :
    OptionCode.tryFrom 200 = .error "option code out of range" ∧
      parseOptionsLoop 6 (200 :: [1, 4, 255, 255, 255, 0]) [] = [] ∧
      parseOptionsLoop 6 [1, 4, 255, 255, 255, 0] [] = [(1, [255, 255, 255, 0])] :=
  ⟨by decide, parse_stops_on_unknown_code 6 200 [1, 4, 255, 255, 255, 0] [] (by decide),
    by decide⟩

/-- C4 counterexample: decoding byte 9 through the MessageType catalog does not
yield the sentinel `Unknown`; it fails hard with an error, exactly like the
other catalogs. -/
theorem messagetype_nine_fails :
    MessageType.tryFrom 9 ≠ .ok MessageType.Unknown ∧
      MessageType.tryFrom 9 = .error "message type out of range" := by
  constructor
  · decide
  · decide

/-- C4 (amended): for every byte outside 1..8, MessageType decoding fails with
an error (the `Unknown` variant is declared with value 255 but is never
produced by decoding; lenient handling happens only in `Packet::message_type`,
which turns the failure into `None`). -/
theorem messagetype_decode_out_of_range (b : Nat) (h : b < 1 ∨ 8 < b) :
    MessageType.tryFrom b = .error "message type out of range" ∧
      MessageType.tryFrom b ≠ .ok MessageType.Unknown := by
  refine ⟨messageType_tryFrom_err b h, ?_⟩
  rw [messageType_tryFrom_err b h]
  intro hc
  exact Except.noConfusion hc

/-- Witness for C4 (amended) at byte 9. -/
theorem messagetype_decode_out_of_range_witness :
    MessageType.tryFrom 9 = .error "message type out of range" ∧
      MessageType.tryFrom 9 ≠ .ok MessageType.Unknown :=
  messagetype_decode_out_of_range 9 (by omega)

/-- C5: `message_type()` returns the matching symbol when the DHCPMessageType
option (code 53) is present with first payload byte in 1..8, and returns `none`
when the option is missing, when its payload is empty, or when its first
payload byte is outside 1..8. -/
theorem message_type_spec (p : Packet) :
    (Options.get p.options 53 = none → p.message_type = none) ∧
    (Options.get p.options 53 = some [] → p.message_type = none) ∧
    (∀ b rest, Options.get p.options 53 = some (b :: rest) → 1 ≤ b → b ≤ 8 →
      ∃ mt, MessageType.tryFrom b = .ok mt ∧ p.message_type = some mt) ∧
    (∀ b rest, Options.get p.options 53 = some (b :: rest) → (b = 0 ∨ 9 ≤ b) →
      p.message_type = none) := by
  refine ⟨?_, ?_, ?_, ?_⟩
  · intro h
    simp [Packet.message_type, h]
  · intro h
    simp [Packet.message_type, h]
  · intro b rest h h1 h2
    simp only [Packet.message_type, h, List.isEmpty_cons, List.getD_cons_zero]
    interval_cases b
    · exact ⟨.Discover, rfl, rfl⟩
    · exact ⟨.Offer, rfl, rfl⟩
    · exact ⟨.Request, rfl, rfl⟩
    · exact ⟨.Decline, rfl, rfl⟩
    · exact ⟨.ACK, rfl, rfl⟩
    · exact ⟨.NAK, rfl, rfl⟩
    · exact ⟨.Release, rfl, rfl⟩
    · exact ⟨.Inform, rfl, rfl⟩
  · intro b rest h hb
    simp [Packet.message_type, h, messageType_tryFrom_err b (by omega)]

/-- Witness for C5 on a packet whose DHCPMessageType payload byte is 1. -/
theorem message_type_spec_witness :
    ∃ mt, MessageType.tryFrom 1 = .ok mt ∧ Packet.message_type mtPacket = some mt :=
  (message_type_spec mtPacket).2.2.1 1 [] (by decide) (by decide) (by decide)

/-- C10: option encoding emits, per entry, the code byte, a length byte equal
to the payload length reduced modulo 256, then all payload bytes; the length
byte equals the payload length exactly iff the payload is at most 255 bytes. -/
theorem format_options_entry (code : Nat) (value : List Nat) (rest : Options) :
    format_options ((code, value) :: rest) =
      code :: (value.length % 256) :: (value ++ format_options rest) ∧
    (value.length ≤ 255 → value.length % 256 = value.length) ∧
    (255 < value.length → value.length % 256 ≠ value.length) := by
  refine ⟨rfl, ?_, ?_⟩
  · intro h
    omega
  · intro h
    omega

/-- Witness for C10: a short payload is described exactly; a 300-byte payload
is emitted whole while its length byte says 44. -/
theorem format_options_entry_witness :
    format_options [(53, [1, 2])] = 53 :: (([1, 2] : List Nat).length % 256) :: ([1, 2] ++ format_options []) ∧
      ([1, 2] : List Nat).length % 256 = ([1, 2] : List Nat).length ∧
      format_options [(43, List.replicate 300 7)] =
        43 :: ((List.replicate 300 7 : List Nat).length % 256) ::
          (List.replicate 300 7 ++ format_options []) ∧
      (List.replicate 300 7 : List Nat).length % 256 ≠ (List.replicate 300 7 : List Nat).length :=
  ⟨(format_options_entry 53 [1, 2] []).1,
    (format_options_entry 53 [1, 2] []).2.1 (by decide),
    (format_options_entry 43 (List.replicate 300 7) []).1,
    (format_options_entry 43 (List.replicate 300 7) []).2.2 (by simp)⟩

/-- C2: when the handler produces a reply, it is sent to 255.255.255.255 at the
request's source port exactly when the request's giaddr is unspecified and
(the source IP is unspecified or the request's broadcast flag is set); in every
other case it is sent to the request's source address unchanged. -/
theorem process_packet_routing (sp : Packet) (src : SocketAddr) (p : Packet) :
    (sp.giaddr.is_unspecified = true →
      (src.ip.is_unspecified = true ∨ sp.broadcast_flag = true) →
      process_packet sp src (some p) =
        some (packetToBytes p, ⟨Ipv4Addr.BROADCAST, src.port⟩)) ∧
    ((sp.giaddr.is_unspecified = false ∨
        (src.ip.is_unspecified = false ∧ sp.broadcast_flag = false)) →
      process_packet sp src (some p) = some (packetToBytes p, src)) := by
  constructor
  · intro h1 h2
    rcases h2 with h2 | h2 <;> simp [process_packet, h1, h2]
  · intro h
    rcases h with h | ⟨h1, h2⟩
    · simp [process_packet, h]
    · simp [process_packet, h1, h2]

/-- Witness for C2: a broadcast-flagged giaddr-free request is answered via
limited broadcast at the source port; a relayed request is answered at its
source address. -/
theorem process_packet_routing_witness :
    process_packet broadcastReqPacket clientAddr (some zeroPacket) =
      some (packetToBytes zeroPacket, ⟨Ipv4Addr.BROADCAST, 68⟩) ∧
    process_packet relayedReqPacket clientAddr (some zeroPacket) =
      some (packetToBytes zeroPacket, clientAddr) :=
  ⟨(process_packet_routing broadcastReqPacket clientAddr zeroPacket).1 (by decide)
      (Or.inr (by decide)),
    (process_packet_routing relayedReqPacket clientAddr zeroPacket).2 (Or.inl (by decide))⟩

/-- C6 counterexample: a buffer whose byte at index 2 is not 6 need not fail
with the hardware-length error: the 3-byte buffer `[0, 0, 5]` fails the length
check first and decode reports "packet too small". -/
theorem hlen_error_counterexample :
    Packet.tryFrom [0, 0, 5] = .error "packet too small" ∧
      ([0, 0, 5] : List Nat).getD 2 0 ≠ 6 ∧
      Packet.tryFrom [0, 0, 5] ≠ .error "hardware addresses must be 6 bytes" := by
  refine ⟨by decide, by decide, by decide⟩

/-- C6 (amended): for every buffer that passes the earlier checks (length at
least 240 and a valid cookie) and whose byte at index 2 is not 6, decode fails
with the hardware-length error. -/
theorem hlen_error (src : List Nat) (hl : 240 ≤ src.length)
    (hck : (src.drop 236).take 4 = DHCP_COOKIE) (h2 : src.getD 2 0 ≠ 6) :
    Packet.tryFrom src = .error "hardware addresses must be 6 bytes" := by
  rw [Packet.tryFrom, if_neg (by omega), if_neg (by simp [hck]), if_pos h2]

/-- Witness for C6 (amended) on a valid-but-for-hlen 240-byte buffer. -/
theorem hlen_error_witness :
    240 ≤ hlenBuf.length ∧ (hlenBuf.drop 236).take 4 = DHCP_COOKIE ∧
      hlenBuf.getD 2 0 ≠ 6 ∧
      Packet.tryFrom hlenBuf = .error "hardware addresses must be 6 bytes" :=
  ⟨by decide, by decide, by decide, hlen_error hlenBuf (by decide) (by decide) (by decide)⟩

/-- Shared helper: indexing into a `take` prefix below the cut agrees with the
original list. -/
theorem getD_take (l : List Nat) (n i : Nat) (h : i < n) :
    (l.take n).getD i 0 = l.getD i 0 := by
  simp [List.getD_eq_getElem?_getD, List.getElem?_take, h]

/-- Shared helper: two 4-byte lists agreeing at every index are equal. -/
theorem list_eq_of_length4 (xs ys : List Nat) (hx : xs.length = 4) (hy : ys.length = 4)
    (h : ∀ j, j < 4 → xs.getD j 0 = ys.getD j 0) : xs = ys := by
  match xs, hx, ys, hy with
  | [a, b, c, d], _, [e, f, g, h'], _ =>
    have h0 := h 0 (by omega)
    have h1 := h 1 (by omega)
    have h2 := h 2 (by omega)
    have h3 := h 3 (by omega)
    simp only [List.getD_cons_zero, List.getD_cons_succ] at h0 h1 h2 h3
    rw [h0, h1, h2, h3]

/-- Shared helper: the encoded fixed header is exactly 240 bytes long, so the
whole encoding is `240 + options` bytes. -/
theorem packetToBytes_length (p : Packet) :
    (packetToBytes p).length = 240 + (format_options p.options).length := by
  simp [packetToBytes, setRange_length]

/-- Shared helper: the bytes after offset 240 of an encoded packet are exactly
the formatted options. -/
theorem packetToBytes_drop240 (p : Packet) :
    (packetToBytes p).drop 240 = format_options p.options := by
  simp only [packetToBytes]
  rw [List.drop_left' (by simp [setRange_length])]

/-- Shared helper: complete characterization of every byte of the fixed
240-byte header produced by the encoder. -/
theorem packetToBytes_getD (p : Packet) (i : Nat) (hi : i < 240) :
    (packetToBytes p).getD i 0 =
      if i = 0 then p.opcode.toU8
      else if i = 1 then p.htype.toU8
      else if i = 2 then p.hlen
      else if 4 ≤ i ∧ i < 8 then (u32_to_bytes p.xid).getD (i - 4) 0
      else if i = 10 then (p.flags >>> 8) % 256
      else if i = 11 then p.flags % 256
      else if 12 ≤ i ∧ i < 16 then p.ciaddr.octets.getD (i - 12) 0
      else if 16 ≤ i ∧ i < 20 then p.yiaddr.octets.getD (i - 16) 0
      else if 20 ≤ i ∧ i < 24 then p.siaddr.octets.getD (i - 20) 0
      else if 24 ≤ i ∧ i < 28 then p.giaddr.octets.getD (i - 24) 0
      else if 28 ≤ i ∧ i < 34 then p.chaddr.octets.getD (i - 28) 0
      else if 44 ≤ i ∧ i < 108 then (p.sname.take 64).getD (i - 44) 0
      else if 108 ≤ i ∧ i < 236 then (p.file.take 128).getD (i - 108) 0
      else if 236 ≤ i then DHCP_COOKIE.getD (i - 236) 0
      else 0 := by
  simp only [packetToBytes]
  rw [List.getD_append _ _ _ i
    (by simp only [setRange_length, List.length_set, List.length_replicate]; omega)]
  simp only [setRange_getD, getD_set, setRange_length, List.length_set,
    List.length_replicate]
  have hsn : (List.take 64 p.sname).length ≤ 64 := by
    simp [List.length_take]
  have hfl : (List.take 128 p.file).length ≤ 128 := by
    simp [List.length_take]
  have hu32 : (u32_to_bytes p.xid).length = 4 := rfl
  have hci : p.ciaddr.octets.length = 4 := rfl
  have hyi : p.yiaddr.octets.length = 4 := rfl
  have hsi : p.siaddr.octets.length = 4 := rfl
  have hgi : p.giaddr.octets.length = 4 := rfl
  have hch : p.chaddr.octets.length = 6 := rfl
  have hck : DHCP_COOKIE.length = 4 := rfl
  rw [hu32, hci, hyi, hsi, hgi, hch, hck]
  by_cases r14 : 236 ≤ i
  · rw [if_pos (show 236 ≤ i ∧ i < 236 + 4 ∧ i < 240 by omega),
      if_neg (show ¬ i = 0 by omega), if_neg (show ¬ i = 1 by omega),
      if_neg (show ¬ i = 2 by omega), if_neg (show ¬ (4 ≤ i ∧ i < 8) by omega),
      if_neg (show ¬ i = 10 by omega), if_neg (show ¬ i = 11 by omega),
      if_neg (show ¬ (12 ≤ i ∧ i < 16) by omega), if_neg (show ¬ (16 ≤ i ∧ i < 20) by omega),
      if_neg (show ¬ (20 ≤ i ∧ i < 24) by omega), if_neg (show ¬ (24 ≤ i ∧ i < 28) by omega),
      if_neg (show ¬ (28 ≤ i ∧ i < 34) by omega), if_neg (show ¬ (44 ≤ i ∧ i < 108) by omega),
      if_neg (show ¬ (108 ≤ i ∧ i < 236) by omega), if_pos r14]
  · rw [if_neg (show ¬ (236 ≤ i ∧ i < 236 + 4 ∧ i < 240) by omega)]
    by_cases r13 : 108 ≤ i
    · rw [if_neg (show ¬ i = 0 by omega), if_neg (show ¬ i = 1 by omega),
        if_neg (show ¬ i = 2 by omega), if_neg (show ¬ (4 ≤ i ∧ i < 8) by omega),
        if_neg (show ¬ i = 10 by omega), if_neg (show ¬ i = 11 by omega),
        if_neg (show ¬ (12 ≤ i ∧ i < 16) by omega), if_neg (show ¬ (16 ≤ i ∧ i < 20) by omega),
        if_neg (show ¬ (20 ≤ i ∧ i < 24) by omega), if_neg (show ¬ (24 ≤ i ∧ i < 28) by omega),
        if_neg (show ¬ (28 ≤ i ∧ i < 34) by omega), if_neg (show ¬ (44 ≤ i ∧ i < 108) by omega),
        if_pos (show 108 ≤ i ∧ i < 236 by omega)]
      by_cases r13b : i < 108 + (List.take 128 p.file).length
      · rw [if_pos (show 108 ≤ i ∧ i < 108 + (List.take 128 p.file).length ∧ i < 240 by omega)]
      · rw [if_neg (show ¬ (108 ≤ i ∧ i < 108 + (List.take 128 p.file).length ∧ i < 240) by omega),
          if_neg (show ¬ (44 ≤ i ∧ i < 44 + (List.take 64 p.sname).length ∧ i < 240) by omega),
          if_neg (show ¬ (28 ≤ i ∧ i < 28 + 6 ∧ i < 240) by omega),
          if_neg (show ¬ (24 ≤ i ∧ i < 24 + 4 ∧ i < 240) by omega),
          if_neg (show ¬ (20 ≤ i ∧ i < 20 + 4 ∧ i < 240) by omega),
          if_neg (show ¬ (16 ≤ i ∧ i < 16 + 4 ∧ i < 240) by omega),
          if_neg (show ¬ (12 ≤ i ∧ i < 12 + 4 ∧ i < 240) by omega),
          if_neg (show ¬ (11 = i ∧ 11 < 240) by omega),
          if_neg (show ¬ (10 = i ∧ 10 < 240) by omega),
          if_neg (show ¬ (4 ≤ i ∧ i < 4 + 4 ∧ i < 240) by omega),
          if_neg (show ¬ (2 = i ∧ 2 < 240) by omega),
          if_neg (show ¬ (1 = i ∧ 1 < 240) by omega),
          if_neg (show ¬ (0 = i ∧ 0 < 240) by omega), replicate_getD]
        exact (List.getD_eq_default _ _ (by omega)).symm
    · by_cases r12 : 44 ≤ i
      · rw [if_neg (show ¬ i = 0 by omega), if_neg (show ¬ i = 1 by omega),
          if_neg (show ¬ i = 2 by omega), if_neg (show ¬ (4 ≤ i ∧ i < 8) by omega),
          if_neg (show ¬ i = 10 by omega), if_neg (show ¬ i = 11 by omega),
          if_neg (show ¬ (12 ≤ i ∧ i < 16) by omega),
          if_neg (show ¬ (16 ≤ i ∧ i < 20) by omega),
          if_neg (show ¬ (20 ≤ i ∧ i < 24) by omega),
          if_neg (show ¬ (24 ≤ i ∧ i < 28) by omega),
          if_neg (show ¬ (28 ≤ i ∧ i < 34) by omega),
          if_pos (show 44 ≤ i ∧ i < 108 by omega),
          if_neg (show ¬ (108 ≤ i ∧ i < 108 + (List.take 128 p.file).length ∧ i < 240) by omega)]
        by_cases r12b : i < 44 + (List.take 64 p.sname).length
        · rw [if_pos (show 44 ≤ i ∧ i < 44 + (List.take 64 p.sname).length ∧ i < 240 by omega)]
        · rw [if_neg (show ¬ (44 ≤ i ∧ i < 44 + (List.take 64 p.sname).length ∧ i < 240) by omega),
            if_neg (show ¬ (28 ≤ i ∧ i < 28 + 6 ∧ i < 240) by omega),
            if_neg (show ¬ (24 ≤ i ∧ i < 24 + 4 ∧ i < 240) by omega),
            if_neg (show ¬ (20 ≤ i ∧ i < 20 + 4 ∧ i < 240) by omega),
            if_neg (show ¬ (16 ≤ i ∧ i < 16 + 4 ∧ i < 240) by omega),
            if_neg (show ¬ (12 ≤ i ∧ i < 12 + 4 ∧ i < 240) by omega),
            if_neg (show ¬ (11 = i ∧ 11 < 240) by omega),
            if_neg (show ¬ (10 = i ∧ 10 < 240) by omega),
            if_neg (show ¬ (4 ≤ i ∧ i < 4 + 4 ∧ i < 240) by omega),
            if_neg (show ¬ (2 = i ∧ 2 < 240) by omega),
            if_neg (show ¬ (1 = i ∧ 1 < 240) by omega),
            if_neg (show ¬ (0 = i ∧ 0 < 240) by omega), replicate_getD]
          exact (List.getD_eq_default _ _ (by omega)).symm
      · rw [if_neg
            (show ¬ (108 ≤ i ∧ i < 108 + (List.take 128 p.file).length ∧ i < 240) by omega),
          if_neg (show ¬ (44 ≤ i ∧ i < 44 + (List.take 64 p.sname).length ∧ i < 240) by omega)]
        by_cases r11 : 34 ≤ i
        · rw [if_neg (show ¬ (28 ≤ i ∧ i < 28 + 6 ∧ i < 240) by omega),
            if_neg (show ¬ (24 ≤ i ∧ i < 24 + 4 ∧ i < 240) by omega),
            if_neg (show ¬ (20 ≤ i ∧ i < 20 + 4 ∧ i < 240) by omega),
            if_neg (show ¬ (16 ≤ i ∧ i < 16 + 4 ∧ i < 240) by omega),
            if_neg (show ¬ (12 ≤ i ∧ i < 12 + 4 ∧ i < 240) by omega),
            if_neg (show ¬ (11 = i ∧ 11 < 240) by omega),
            if_neg (show ¬ (10 = i ∧ 10 < 240) by omega),
            if_neg (show ¬ (4 ≤ i ∧ i < 4 + 4 ∧ i < 240) by omega),
            if_neg (show ¬ (2 = i ∧ 2 < 240) by omega),
            if_neg (show ¬ (1 = i ∧ 1 < 240) by omega),
            if_neg (show ¬ (0 = i ∧ 0 < 240) by omega), replicate_getD,
            if_neg (show ¬ i = 0 by omega), if_neg (show ¬ i = 1 by omega),
            if_neg (show ¬ i = 2 by omega), if_neg (show ¬ (4 ≤ i ∧ i < 8) by omega),
            if_neg (show ¬ i = 10 by omega), if_neg (show ¬ i = 11 by omega),
            if_neg (show ¬ (12 ≤ i ∧ i < 16) by omega),
            if_neg (show ¬ (16 ≤ i ∧ i < 20) by omega),
            if_neg (show ¬ (20 ≤ i ∧ i < 24) by omega),
            if_neg (show ¬ (24 ≤ i ∧ i < 28) by omega),
            if_neg (show ¬ (28 ≤ i ∧ i < 34) by omega),
            if_neg (show ¬ (44 ≤ i ∧ i < 108) by omega),
            if_neg (show ¬ (108 ≤ i ∧ i < 236) by omega), if_neg (show ¬ 236 ≤ i by omega)]
        · by_cases r10 : 28 ≤ i
          · rw [if_pos (show 28 ≤ i ∧ i < 28 + 6 ∧ i < 240 by omega),
              if_neg (show ¬ i = 0 by omega), if_neg (show ¬ i = 1 by omega),
              if_neg (show ¬ i = 2 by omega), if_neg (show ¬ (4 ≤ i ∧ i < 8) by omega),
              if_neg (show ¬ i = 10 by omega), if_neg (show ¬ i = 11 by omega),
              if_neg (show ¬ (12 ≤ i ∧ i < 16) by omega),
              if_neg (show ¬ (16 ≤ i ∧ i < 20) by omega),
              if_neg (show ¬ (20 ≤ i ∧ i < 24) by omega),
              if_neg (show ¬ (24 ≤ i ∧ i < 28) by omega),
              if_pos (show 28 ≤ i ∧ i < 34 by omega)]
          · rw [if_neg (show ¬ (28 ≤ i ∧ i < 28 + 6 ∧ i < 240) by omega)]
            by_cases r9 : 24 ≤ i
            · rw [if_pos (show 24 ≤ i ∧ i < 24 + 4 ∧ i < 240 by omega),
                if_neg (show ¬ i = 0 by omega), if_neg (show ¬ i = 1 by omega),
                if_neg (show ¬ i = 2 by omega), if_neg (show ¬ (4 ≤ i ∧ i < 8) by omega),
                if_neg (show ¬ i = 10 by omega), if_neg (show ¬ i = 11 by omega),
                if_neg (show ¬ (12 ≤ i ∧ i < 16) by omega),
                if_neg (show ¬ (16 ≤ i ∧ i < 20) by omega),
                if_neg (show ¬ (20 ≤ i ∧ i < 24) by omega),
                if_pos (show 24 ≤ i ∧ i < 28 by omega)]
            · rw [if_neg (show ¬ (24 ≤ i ∧ i < 24 + 4 ∧ i < 240) by omega)]
              by_cases r8 : 20 ≤ i
              · rw [if_pos (show 20 ≤ i ∧ i < 20 + 4 ∧ i < 240 by omega),
                  if_neg (show ¬ i = 0 by omega), if_neg (show ¬ i = 1 by omega),
                  if_neg (show ¬ i = 2 by omega), if_neg (show ¬ (4 ≤ i ∧ i < 8) by omega),
                  if_neg (show ¬ i = 10 by omega), if_neg (show ¬ i = 11 by omega),
                  if_neg (show ¬ (12 ≤ i ∧ i < 16) by omega),
                  if_neg (show ¬ (16 ≤ i ∧ i < 20) by omega),
                  if_pos (show 20 ≤ i ∧ i < 24 by omega)]
              · rw [if_neg (show ¬ (20 ≤ i ∧ i < 20 + 4 ∧ i < 240) by omega)]
                by_cases r7 : 16 ≤ i
                · rw [if_pos (show 16 ≤ i ∧ i < 16 + 4 ∧ i < 240 by omega),
                    if_neg (show ¬ i = 0 by omega), if_neg (show ¬ i = 1 by omega),
                    if_neg (show ¬ i = 2 by omega), if_neg (show ¬ (4 ≤ i ∧ i < 8) by omega),
                    if_neg (show ¬ i = 10 by omega), if_neg (show ¬ i = 11 by omega),
                    if_neg (show ¬ (12 ≤ i ∧ i < 16) by omega),
                    if_pos (show 16 ≤ i ∧ i < 20 by omega)]
                · rw [if_neg (show ¬ (16 ≤ i ∧ i < 16 + 4 ∧ i < 240) by omega)]
                  by_cases r6 : 12 ≤ i
                  · rw [if_pos (show 12 ≤ i ∧ i < 12 + 4 ∧ i < 240 by omega),
                      if_neg (show ¬ i = 0 by omega), if_neg (show ¬ i = 1 by omega),
                      if_neg (show ¬ i = 2 by omega), if_neg (show ¬ (4 ≤ i ∧ i < 8) by omega),
                      if_neg (show ¬ i = 10 by omega), if_neg (show ¬ i = 11 by omega),
                      if_pos (show 12 ≤ i ∧ i < 16 by omega)]
                  · rw [if_neg (show ¬ (12 ≤ i ∧ i < 12 + 4 ∧ i < 240) by omega)]
                    by_cases r5 : i = 11
                    · rw [if_pos (show 11 = i ∧ 11 < 240 by omega),
                        if_neg (show ¬ i = 0 by omega), if_neg (show ¬ i = 1 by omega),
                        if_neg (show ¬ i = 2 by omega),
                        if_neg (show ¬ (4 ≤ i ∧ i < 8) by omega),
                        if_neg (show ¬ i = 10 by omega), if_pos r5]
                    · rw [if_neg (show ¬ (11 = i ∧ 11 < 240) by omega)]
                      by_cases r4 : i = 10
                      · rw [if_pos (show 10 = i ∧ 10 < 240 by omega),
                          if_neg (show ¬ i = 0 by omega), if_neg (show ¬ i = 1 by omega),
                          if_neg (show ¬ i = 2 by omega),
                          if_neg (show ¬ (4 ≤ i ∧ i < 8) by omega), if_pos r4]
                      · rw [if_neg (show ¬ (10 = i ∧ 10 < 240) by omega)]
                        by_cases r3 : 4 ≤ i ∧ i < 8
                        · rw [if_pos (show 4 ≤ i ∧ i < 4 + 4 ∧ i < 240 by omega),
                            if_neg (show ¬ i = 0 by omega), if_neg (show ¬ i = 1 by omega),
                            if_neg (show ¬ i = 2 by omega), if_pos r3]
                        · rw [if_neg (show ¬ (4 ≤ i ∧ i < 4 + 4 ∧ i < 240) by omega)]
                          by_cases r2 : i = 2
                          · rw [if_pos (show 2 = i ∧ 2 < 240 by omega),
                              if_neg (show ¬ i = 0 by omega),
                              if_neg (show ¬ i = 1 by omega), if_pos r2]
                          · rw [if_neg (show ¬ (2 = i ∧ 2 < 240) by omega)]
                            by_cases r1 : i = 1
                            · rw [if_pos (show 1 = i ∧ 1 < 240 by omega),
                                if_neg (show ¬ i = 0 by omega), if_pos r1]
                            · rw [if_neg (show ¬ (1 = i ∧ 1 < 240) by omega)]
                              by_cases r0 : i = 0
                              · rw [if_pos (show 0 = i ∧ 0 < 240 by omega), if_pos r0]
                              · rw [if_neg (show ¬ (0 = i ∧ 0 < 240) by omega), replicate_getD,
                                  if_neg (show ¬ i = 0 by omega),
                                  if_neg (show ¬ i = 1 by omega),
                                  if_neg (show ¬ i = 2 by omega),
                                  if_neg (show ¬ (4 ≤ i ∧ i < 8) by omega),
                                  if_neg (show ¬ i = 10 by omega),
                                  if_neg (show ¬ i = 11 by omega),
                                  if_neg (show ¬ (12 ≤ i ∧ i < 16) by omega),
                                  if_neg (show ¬ (16 ≤ i ∧ i < 20) by omega),
                                  if_neg (show ¬ (20 ≤ i ∧ i < 24) by omega),
                                  if_neg (show ¬ (24 ≤ i ∧ i < 28) by omega),
                                  if_neg (show ¬ (28 ≤ i ∧ i < 34) by omega),
                                  if_neg (show ¬ (44 ≤ i ∧ i < 108) by omega),
                                  if_neg (show ¬ (108 ≤ i ∧ i < 236) by omega),
                                  if_neg (show ¬ 236 ≤ i by omega)]

/-- C8: encoding always yields exactly `240 + encoded-options-length` bytes;
the hops byte (offset 3) and the secs bytes (offsets 8 and 9) of the output
are always zero; and the cookie bytes [236, 240) are always the DHCP magic
constant, whatever the source packet's fields hold. -/
theorem encode_frame_shape (p : Packet) :
    (packetToBytes p).length = 240 + (format_options p.options).length ∧
    (packetToBytes p).getD 3 0 = 0 ∧
    (packetToBytes p).getD 8 0 = 0 ∧
    (packetToBytes p).getD 9 0 = 0 ∧
    ((packetToBytes p).drop 236).take 4 = DHCP_COOKIE := by
  refine ⟨packetToBytes_length p, ?_, ?_, ?_, ?_⟩
  · rw [packetToBytes_getD p 3 (by omega)]
    norm_num
  · rw [packetToBytes_getD p 8 (by omega)]
    norm_num
  · rw [packetToBytes_getD p 9 (by omega)]
    norm_num
  · apply list_eq_of_length4
    · rw [slice_length]
      rw [packetToBytes_length]
      omega
    · rfl
    · intro j hj
      rw [slice_getD, if_pos hj, packetToBytes_getD p (236 + j) (by omega)]
      repeat rw [if_neg (by omega)]
      rw [if_pos (show (236 : Nat) ≤ 236 + j from by omega)]
      congr 1
      omega

/-- C7: the option decode path never signals an error to its caller.  First,
whether packet decode succeeds depends only on the first 240 bytes — any
option region whatsoever, however malformed, leaves success unchanged.
Second, a truncated option (declared length longer than the remaining bytes)
makes the scan stop and return the entries recognized so far.  Third, a
single odd trailing byte is ignored. -/
theorem option_decode_never_fails :
    (∀ src : List Nat, 240 ≤ src.length →
      ((Packet.tryFrom src).isOk ↔ (Packet.tryFrom (src.take 240)).isOk)) ∧
    (∀ fuel c L : Nat, ∀ v : List Nat, ∀ m : Options, ∀ k : Nat,
      OptionCode.tryFrom c = .ok k → k ≠ 255 → k ≠ 0 → v.length < L →
      parseOptionsLoop fuel (c :: L :: v) m = m) ∧
    (∀ fuel b : Nat, ∀ m : Options, parseOptionsLoop fuel [b] m = m) := by
  refine ⟨?_, ?_, ?_⟩
  · intro src h
    have ht : (src.take 240).length = 240 := by
      simp only [List.length_take]
      omega
    have hcook : ((src.take 240).drop 236).take 4 = (src.drop 236).take 4 := by
      rw [List.drop_take, List.take_take]
      norm_num
    have hg0 : (src.take 240).getD 0 0 = src.getD 0 0 := getD_take src 240 0 (by omega)
    have hg1 : (src.take 240).getD 1 0 = src.getD 1 0 := getD_take src 240 1 (by omega)
    have hg2 : (src.take 240).getD 2 0 = src.getD 2 0 := getD_take src 240 2 (by omega)
    simp only [Packet.tryFrom, hcook, hg0, hg1, hg2, ht]
    split_ifs <;>
      first
        | rfl
        | omega
        | (cases hO : OpCode.tryFrom (src.getD 0 0) <;>
            cases hH : HardwareType.tryFrom (src.getD 1 0) <;> rfl)
  · intro fuel c L v m k hk h255 h0 hv
    cases fuel with
    | zero => rfl
    | succ f =>
      simp only [parseOptionsLoop, List.length_cons, List.getD_cons_zero,
        List.getD_cons_succ, hk]
      rw [if_neg (by omega), if_neg h255, if_neg h0, if_pos (by omega)]
  · intro fuel b m
    cases fuel with
    | zero => rfl
    | succ f => simp [parseOptionsLoop]

/-- Witness for C7: appending a single well-formed option to a minimal valid
buffer does not change decode success; a truncated SubnetMask option and an
odd trailing code byte both stop the scan without error. -/
theorem option_decode_never_fails_witness :
    240 ≤ oneOptionBuf.length ∧
      ((Packet.tryFrom oneOptionBuf).isOk ↔ (Packet.tryFrom (oneOptionBuf.take 240)).isOk) ∧
      OptionCode.tryFrom 1 = .ok 1 ∧
      parseOptionsLoop 4 (1 :: 4 :: [255, 255]) [] = [] ∧
      parseOptionsLoop 2 [53] [] = [] :=
  ⟨by decide, option_decode_never_fails.1 oneOptionBuf (by decide), by decide,
    option_decode_never_fails.2.1 4 1 4 [255, 255] [] 1 (by decide) (by decide)
      (by decide) (by decide),
    option_decode_never_fails.2.2 2 53 []⟩

/-- Helper: the hardware-address parse loop fails whenever more than six
segments remain to be consumed. -/
theorem fromStrLoop_long (segs : List (List Char)) (i : Nat) (r : List Nat)
    (h : 6 < i + segs.length) (hne : segs ≠ []) : fromStrLoop segs i r = none := by
  induction segs generalizing i r with
  | nil => exact absurd rfl hne
  | cons s rest ih =>
    simp only [fromStrLoop]
    by_cases hi : i > 5
    · rw [if_pos hi]
    · rw [if_neg hi]
      cases hu : u8_from_str_radix16 s with
      | none => rfl
      | some b =>
        have hr : rest ≠ [] := by
          apply List.ne_nil_of_length_pos
          simp only [List.length_cons] at h
          omega
        exact ih (i + 1) (r.set i b) (by simp only [List.length_cons] at h; omega) hr

/-- Helper: the hardware-address parse loop fails whenever some remaining
segment is not a valid hex byte. -/
theorem fromStrLoop_invalid (segs : List (List Char)) (i : Nat) (r : List Nat)
    (h : ∃ s ∈ segs, u8_from_str_radix16 s = none) : fromStrLoop segs i r = none := by
  induction segs generalizing i r with
  | nil => simp at h
  | cons s rest ih =>
    simp only [fromStrLoop]
    by_cases hi : i > 5
    · rw [if_pos hi]
    · rw [if_neg hi]
      obtain ⟨t, ht, hinv⟩ := h
      rcases List.mem_cons.mp ht with rfl | htr
      · rw [hinv]
      · cases hu : u8_from_str_radix16 s with
        | none => rfl
        | some b => exact ih (i + 1) (r.set i b) ⟨t, htr, hinv⟩

/-- Helper: with at most six valid segments the parse loop succeeds, keeps the
array length, and leaves every byte at or beyond the consumed count
untouched. -/
theorem fromStrLoop_some (segs : List (List Char)) (i : Nat) (r : List Nat)
    (hval : ∀ s ∈ segs, (u8_from_str_radix16 s).isSome = true)
    (hlen : i + segs.length ≤ 6) :
    ∃ r2, fromStrLoop segs i r = some r2 ∧ r2.length = r.length ∧
      ∀ j, i + segs.length ≤ j → r2.getD j 0 = r.getD j 0 := by
  induction segs generalizing i r with
  | nil => exact ⟨r, rfl, rfl, fun j _ => rfl⟩
  | cons s rest ih =>
    simp only [fromStrLoop]
    rw [if_neg (by simp only [List.length_cons] at hlen; omega)]
    obtain ⟨b, hb⟩ := Option.isSome_iff_exists.mp (hval s (by simp))
    rw [hb]
    obtain ⟨r2, h1, h2, h3⟩ := ih (i + 1) (r.set i b)
      (fun t ht => hval t (by simp [ht]))
      (by simp only [List.length_cons] at hlen; omega)
    refine ⟨r2, h1, by rw [h2, List.length_set], fun j hj => ?_⟩
    simp only [List.length_cons] at hj
    rw [h3 j (by omega), getD_set, if_neg (by omega)]

/-- C9: hardware-address parsing splits the input on `:` or `-`; it fails with
a numeric-parse error if more than 6 segments are supplied or some segment is
not a valid hex byte; with fewer than 6 (valid) segments it succeeds and the
unfilled trailing bytes of the 6-byte result are zero. -/
theorem hwaddr_from_str_spec (value : List Char) :
    ((6 < (splitSep value (fun c => c == ':' || c == '-')).length ∨
        ∃ s ∈ splitSep value (fun c => c == ':' || c == '-'),
          u8_from_str_radix16 s = none) →
      HardwareAddr.from_str value = none) ∧
    ((splitSep value (fun c => c == ':' || c == '-')).length < 6 →
      (∀ s ∈ splitSep value (fun c => c == ':' || c == '-'),
        (u8_from_str_radix16 s).isSome = true) →
      ∃ a, HardwareAddr.from_str value = some a ∧ a.octets.length = 6 ∧
        ∀ i, (splitSep value (fun c => c == ':' || c == '-')).length ≤ i → i < 6 →
          a.octets.getD i 0 = 0) := by
  constructor
  · intro h
    rcases h with hlong | hinv
    · rw [HardwareAddr.from_str,
        fromStrLoop_long _ 0 _ (by omega) (List.ne_nil_of_length_pos (by omega))]
      rfl
    · rw [HardwareAddr.from_str, fromStrLoop_invalid _ 0 _ hinv]
      rfl
  · intro hlen hval
    obtain ⟨r2, h1, h2, h3⟩ :=
      fromStrLoop_some (splitSep value (fun c => c == ':' || c == '-')) 0
        (List.replicate 6 0) hval (by omega)
    refine ⟨HardwareAddr.ofSlice r2, ?_, rfl, ?_⟩
    · rw [HardwareAddr.from_str, h1]
      rfl
    · intro i hi hi6
      have ho : (HardwareAddr.ofSlice r2).octets.getD i 0 = r2.getD i 0 := by
        interval_cases i <;> rfl
      rw [ho, h3 i (by omega), replicate_getD]

/-- Witness for C9: seven segments fail; a bad hex segment fails; two valid
segments succeed with the four unfilled bytes zero. -/
theorem hwaddr_from_str_spec_witness :
    HardwareAddr.from_str ['1', ':', '2', ':', '3', ':', '4', ':', '5', ':', '6', ':', '7']
        = none ∧
      HardwareAddr.from_str ['Z', 'Z'] = none ∧
      ∃ a, HardwareAddr.from_str ['A', 'A', ':', 'B', 'B'] = some a ∧
        a.octets.length = 6 ∧
        ∀ i, (splitSep ['A', 'A', ':', 'B', 'B'] (fun c => c == ':' || c == '-')).length ≤ i →
          i < 6 → a.octets.getD i 0 = 0 :=
  ⟨(hwaddr_from_str_spec _).1 (Or.inl (by decide)),
    (hwaddr_from_str_spec _).1 (Or.inr ⟨['Z', 'Z'], by decide, by decide⟩),
    (hwaddr_from_str_spec _).2 (by decide) (by decide)⟩

/-- Helper: the option loop on an empty byte list returns the map unchanged. -/
theorem parseOptionsLoop_nil (f : Nat) (m : Options) : parseOptionsLoop f [] m = m := by
  cases f with
  | zero => rfl
  | succ g => simp [parseOptionsLoop]

/-- Helper: a region holding exactly one well-formed option parses to the
single-entry map. -/
theorem parse_single_option (c L : Nat) (v : List Nat)
    (hvc : OptionCode.tryFrom c = .ok c) (hc0 : c ≠ 0) (hc255 : c ≠ 255)
    (hvL : v.length = L) :
    parseOptionsLoop (v.length + 1 + 1) (c :: L :: v) [] = [(c, v)] := by
  simp only [parseOptionsLoop, List.length_cons, List.getD_cons_zero, List.getD_cons_succ, hvc]
  rw [if_neg (by omega), if_neg hc255, if_neg hc0, if_neg (by omega)]
  have hd : (c :: L :: v).drop (2 + L) = [] := by
    rw [show 2 + L = L + 2 from by omega, show (c :: L :: v).drop (L + 2) = v.drop L from rfl,
      ← hvL, List.drop_length]
  have ht : ((c :: L :: v).drop 2).take L = v := by
    rw [show (c :: L :: v).drop 2 = v from rfl, ← hvL, List.take_length]
  rw [hd, ht]
  simp [Options.insert]

/-- Helper: octets of an address decoded from a byte slice read the slice. -/
theorem ip_octets_getD (s : List Nat) (k : Nat) (hk : k < 4) :
    (bytes_to_ip_addr s).octets.getD k 0 = s.getD k 0 := by
  interval_cases k <;> rfl

/-- Helper: octets of a hardware address taken from a byte slice read the
slice. -/
theorem hw_octets_getD (s : List Nat) (k : Nat) (hk : k < 6) :
    (HardwareAddr.ofSlice s).octets.getD k 0 = s.getD k 0 := by
  interval_cases k <;> rfl

/-- C1 counterexample: `chaddrTailBuf` satisfies every hypothesis of the claim
(length 240, valid cookie, opcode 1, htype 1, hlen 6, zero options) yet
`encode(decode(bytes))` also differs from the input at offset 34 — inside the
`chaddr` field, not among the exemptions (hops, secs, sname/file) the claim
lists: byte 34 is 7 in the input and 0 in the round-tripped output. -/
theorem roundtrip_chaddr_counterexample :
    240 ≤ chaddrTailBuf.length ∧
      (chaddrTailBuf.drop 236).take 4 = DHCP_COOKIE ∧
      chaddrTailBuf.getD 0 0 = 1 ∧ chaddrTailBuf.getD 1 0 = 1 ∧
      chaddrTailBuf.getD 2 0 = 6 ∧ chaddrTailBuf.drop 240 = [] ∧
      (Packet.tryFrom chaddrTailBuf).toOption.map
          (fun p => (packetToBytes p).getD 34 0) = some 0 ∧
      chaddrTailBuf.getD 34 0 = 7 := by
  decide

/-- C1 (amended): for every byte buffer of length at least 240 with the DHCP
cookie at [236, 240), byte 0 in {1, 2}, byte 1 = 1, byte 2 = 6, and an option
region that is empty or exactly one well-formed option, decode succeeds and
re-encoding reproduces the buffer except that the hops byte (3), the secs
bytes (8, 9) and additionally the chaddr padding bytes [34, 44) of the output
are zero, and the sname/file windows agree with the input only up to (but
excluding) each window's first NUL byte. -/
theorem roundtrip_modulo_frame (buf : List Nat)
    (hb : ∀ x ∈ buf, x < 256) (hlen : 240 ≤ buf.length)
    (hck : (buf.drop 236).take 4 = DHCP_COOKIE)
    (hop : buf.getD 0 0 = 1 ∨ buf.getD 0 0 = 2)
    (hht : buf.getD 1 0 = 1) (hhl : buf.getD 2 0 = 6)
    (hopts : buf.drop 240 = [] ∨
      ∃ c L v, buf.drop 240 = c :: L :: v ∧ OptionCode.tryFrom c = .ok c ∧
        c ≠ 0 ∧ c ≠ 255 ∧ v.length = L) :
    ∃ p, Packet.tryFrom buf = .ok p ∧
      (packetToBytes p).length = buf.length ∧
      (packetToBytes p).drop 240 = buf.drop 240 ∧
      (∀ i, (i = 3 ∨ i = 8 ∨ i = 9 ∨ (34 ≤ i ∧ i < 44)) →
        (packetToBytes p).getD i 0 = 0) ∧
      (∀ i, 44 ≤ i → i < 108 → (∀ j, 44 ≤ j → j ≤ i → buf.getD j 0 ≠ 0) →
        (packetToBytes p).getD i 0 = buf.getD i 0) ∧
      (∀ i, 108 ≤ i → i < 236 → (∀ j, 108 ≤ j → j ≤ i → buf.getD j 0 ≠ 0) →
        (packetToBytes p).getD i 0 = buf.getD i 0) ∧
      (∀ i, i < 240 → ¬(i = 3 ∨ i = 8 ∨ i = 9 ∨ (34 ≤ i ∧ i < 236)) →
        (packetToBytes p).getD i 0 = buf.getD i 0) := by
  have hbyte : ∀ i, i < buf.length → buf.getD i 0 < 256 :=
    fun i hi => hb _ (getD_mem buf i hi)
  have hdec : ∃ o : OpCode, OpCode.toU8 o = buf.getD 0 0 ∧
      Packet.tryFrom buf = .ok {
        opcode := o
        htype := .Ethernet
        hlen := buf.getD 2 0
        hops := buf.getD 3 0
        xid := bytes_to_u32 ((buf.drop 4).take 4)
        secs := ((buf.getD 8 0) <<< 8) ||| buf.getD 9 0
        flags := ((buf.getD 10 0) <<< 8) ||| buf.getD 11 0
        ciaddr := bytes_to_ip_addr ((buf.drop 12).take 4)
        yiaddr := bytes_to_ip_addr ((buf.drop 16).take 4)
        siaddr := bytes_to_ip_addr ((buf.drop 20).take 4)
        giaddr := bytes_to_ip_addr ((buf.drop 24).take 4)
        chaddr := HardwareAddr.ofSlice ((buf.drop 28).take 6)
        sname := trim_null ((buf.drop 44).take 64)
        file := trim_null ((buf.drop 108).take 128)
        cookie := (buf.drop 236).take 4
        options := Packet.parse_options buf } := by
    rcases hop with hop | hop
    · refine ⟨.BootRequest, by rw [hop]; rfl, ?_⟩
      rw [Packet.tryFrom, if_neg (by omega), if_neg (by simp [hck]), if_neg (by omega),
        hop, hht]
      rfl
    · refine ⟨.BootReply, by rw [hop]; rfl, ?_⟩
      rw [Packet.tryFrom, if_neg (by omega), if_neg (by simp [hck]), if_neg (by omega),
        hop, hht]
      rfl
  obtain ⟨o, hou, hdec⟩ := hdec
  have hfmt : format_options (Packet.parse_options buf) = buf.drop 240 := by
    rcases hopts with hnil | ⟨c, L, v, hr, hvc, hc0, hc255, hvL⟩
    · have h240 : buf.length ≤ 240 := by
        have := List.drop_eq_nil_iff.mp hnil
        omega
      rw [Packet.parse_options, if_pos h240, hnil]
      rfl
    · have hrl : (buf.drop 240).length = buf.length - 240 := List.length_drop 240 buf
      rw [hr] at hrl
      simp only [List.length_cons] at hrl
      have hgt : ¬ buf.length ≤ 240 := by omega
      have hL : L < 256 := by
        refine hb L (List.Sublist.mem ?_ (List.drop_sublist 240 buf))
        rw [hr]
        simp
      rw [Packet.parse_options, if_neg hgt, hr]
      rw [show (c :: L :: v).length = v.length + 1 + 1 from by simp,
        parse_single_option c L v hvc hc0 hc255 hvL]
      simp only [format_options, List.append_nil]
      rw [Nat.mod_eq_of_lt (by omega), hvL]
  refine ⟨_, hdec, ?_, ?_, ?_, ?_, ?_, ?_⟩
  · rw [packetToBytes_length]
    show 240 + (format_options (Packet.parse_options buf)).length = buf.length
    rw [hfmt, List.length_drop]
    omega
  · rw [packetToBytes_drop240]
    exact hfmt
  · intro i hi
    rw [packetToBytes_getD _ i (by omega)]
    repeat rw [if_neg (by omega)]
  · intro i h44 h108 hnul
    rw [packetToBytes_getD _ i (by omega)]
    repeat rw [if_neg (by omega)]
    rw [if_pos (show 44 ≤ i ∧ i < 108 from ⟨h44, h108⟩)]
    have hw : ((buf.drop 44).take 64).length = 64 := slice_length buf 44 64 (by omega)
    have hsl : (trim_null ((buf.drop 44).take 64)).length ≤ 64 :=
      le_trans (List.Sublist.length_le (List.takeWhile_sublist _)) (le_of_eq hw)
    show ((trim_null ((buf.drop 44).take 64)).take 64).getD (i - 44) 0 = buf.getD i 0
    rw [List.take_of_length_le hsl]
    have harg : ∀ j, j ≤ i - 44 → ((buf.drop 44).take 64).getD j 0 ≠ 0 := by
      intro j hj
      rw [slice_getD, if_pos (by omega)]
      exact hnul (44 + j) (by omega) (by omega)
    rw [show trim_null ((buf.drop 44).take 64)
        = ((buf.drop 44).take 64).takeWhile (fun b => b ≠ 0) from rfl,
      takeWhile_getD _ (i - 44) (by omega) harg,
      slice_getD, if_pos (by omega), show 44 + (i - 44) = i from by omega]
  · intro i h108 h236 hnul
    rw [packetToBytes_getD _ i (by omega)]
    repeat rw [if_neg (by omega)]
    rw [if_pos (show 108 ≤ i ∧ i < 236 from ⟨h108, h236⟩)]
    have hw : ((buf.drop 108).take 128).length = 128 := slice_length buf 108 128 (by omega)
    have hsl : (trim_null ((buf.drop 108).take 128)).length ≤ 128 :=
      le_trans (List.Sublist.length_le (List.takeWhile_sublist _)) (le_of_eq hw)
    show ((trim_null ((buf.drop 108).take 128)).take 128).getD (i - 108) 0 = buf.getD i 0
    rw [List.take_of_length_le hsl]
    have harg : ∀ j, j ≤ i - 108 → ((buf.drop 108).take 128).getD j 0 ≠ 0 := by
      intro j hj
      rw [slice_getD, if_pos (by omega)]
      exact hnul (108 + j) (by omega) (by omega)
    rw [show trim_null ((buf.drop 108).take 128)
        = ((buf.drop 108).take 128).takeWhile (fun b => b ≠ 0) from rfl,
      takeWhile_getD _ (i - 108) (by omega) harg,
      slice_getD, if_pos (by omega), show 108 + (i - 108) = i from by omega]
  · intro i hi hnot
    rw [packetToBytes_getD _ i (by omega)]
    by_cases h0 : i = 0
    · rw [if_pos h0]
      show OpCode.toU8 o = buf.getD i 0
      rw [h0, hou]
    · rw [if_neg h0]
      by_cases h1 : i = 1
      · rw [if_pos h1]
        show HardwareType.toU8 .Ethernet = buf.getD i 0
        rw [h1, hht]
        rfl
      · rw [if_neg h1]
        by_cases h2 : i = 2
        · rw [if_pos h2]
          show buf.getD 2 0 = buf.getD i 0
          rw [h2]
        · rw [if_neg h2]
          by_cases h48 : 4 ≤ i ∧ i < 8
          · rw [if_pos h48]
            show (u32_to_bytes (bytes_to_u32 ((buf.drop 4).take 4))).getD (i - 4) 0
                = buf.getD i 0
            have hs4 : ((buf.drop 4).take 4).length = 4 := slice_length buf 4 4 (by omega)
            have hmem : ∀ x ∈ (buf.drop 4).take 4, x < 256 := fun x hx =>
              hb x (List.Sublist.mem hx
                ((List.take_sublist 4 _).trans (List.drop_sublist 4 buf)))
            rw [u32_roundtrip _ hs4 hmem, slice_getD, if_pos (by omega),
              show 4 + (i - 4) = i from by omega]
          · rw [if_neg h48]
            by_cases h10 : i = 10
            · rw [if_pos h10]
              show ((buf.getD 10 0 <<< 8 ||| buf.getD 11 0) >>> 8) % 256 = buf.getD i 0
              rw [h10]
              exact (u16_parts _ _ (hbyte 10 (by omega)) (hbyte 11 (by omega))).1
            · rw [if_neg h10]
              by_cases h11 : i = 11
              · rw [if_pos h11]
                show (buf.getD 10 0 <<< 8 ||| buf.getD 11 0) % 256 = buf.getD i 0
                rw [h11]
                exact (u16_parts _ _ (hbyte 10 (by omega)) (hbyte 11 (by omega))).2
              · rw [if_neg h11]
                by_cases hci : 12 ≤ i ∧ i < 16
                · rw [if_pos hci]
                  show (bytes_to_ip_addr ((buf.drop 12).take 4)).octets.getD (i - 12) 0
                      = buf.getD i 0
                  rw [ip_octets_getD _ _ (by omega), slice_getD, if_pos (by omega),
                    show 12 + (i - 12) = i from by omega]
                · rw [if_neg hci]
                  by_cases hyi : 16 ≤ i ∧ i < 20
                  · rw [if_pos hyi]
                    show (bytes_to_ip_addr ((buf.drop 16).take 4)).octets.getD (i - 16) 0
                        = buf.getD i 0
                    rw [ip_octets_getD _ _ (by omega), slice_getD, if_pos (by omega),
                      show 16 + (i - 16) = i from by omega]
                  · rw [if_neg hyi]
                    by_cases hsi : 20 ≤ i ∧ i < 24
                    · rw [if_pos hsi]
                      show (bytes_to_ip_addr ((buf.drop 20).take 4)).octets.getD (i - 20) 0
                          = buf.getD i 0
                      rw [ip_octets_getD _ _ (by omega), slice_getD, if_pos (by omega),
                        show 20 + (i - 20) = i from by omega]
                    · rw [if_neg hsi]
                      by_cases hgi : 24 ≤ i ∧ i < 28
                      · rw [if_pos hgi]
                        show (bytes_to_ip_addr ((buf.drop 24).take 4)).octets.getD (i - 24) 0
                            = buf.getD i 0
                        rw [ip_octets_getD _ _ (by omega), slice_getD, if_pos (by omega),
                          show 24 + (i - 24) = i from by omega]
                      · rw [if_neg hgi]
                        by_cases hch : 28 ≤ i ∧ i < 34
                        · rw [if_pos hch]
                          show (HardwareAddr.ofSlice ((buf.drop 28).take 6)).octets.getD
                              (i - 28) 0 = buf.getD i 0
                          rw [hw_octets_getD _ _ (by omega), slice_getD, if_pos (by omega),
                            show 28 + (i - 28) = i from by omega]
                        · rw [if_neg hch, if_neg (by omega), if_neg (by omega),
                            if_pos (show 236 ≤ i from by omega)]
                          show DHCP_COOKIE.getD (i - 236) 0 = buf.getD i 0
                          rw [← hck, slice_getD, if_pos (by omega),
                            show 236 + (i - 236) = i from by omega]

/-- Witness for C1 (amended) on a minimal valid buffer carrying one option. -/
theorem roundtrip_modulo_frame_witness :
    ∃ p, Packet.tryFrom oneOptionBuf = .ok p ∧
      (packetToBytes p).length = oneOptionBuf.length ∧
      (packetToBytes p).drop 240 = oneOptionBuf.drop 240 ∧
      (∀ i, (i = 3 ∨ i = 8 ∨ i = 9 ∨ (34 ≤ i ∧ i < 44)) →
        (packetToBytes p).getD i 0 = 0) ∧
      (∀ i, 44 ≤ i → i < 108 → (∀ j, 44 ≤ j → j ≤ i → oneOptionBuf.getD j 0 ≠ 0) →
        (packetToBytes p).getD i 0 = oneOptionBuf.getD i 0) ∧
      (∀ i, 108 ≤ i → i < 236 → (∀ j, 108 ≤ j → j ≤ i → oneOptionBuf.getD j 0 ≠ 0) →
        (packetToBytes p).getD i 0 = oneOptionBuf.getD i 0) ∧
      (∀ i, i < 240 → ¬(i = 3 ∨ i = 8 ∨ i = 9 ∨ (34 ≤ i ∧ i < 236)) →
        (packetToBytes p).getD i 0 = oneOptionBuf.getD i 0) :=
  roundtrip_modulo_frame oneOptionBuf (by decide) (by decide) (by decide)
    (Or.inl (by decide)) (by decide) (by decide)
    (Or.inr ⟨53, 1, [5], by decide, by decide, by decide, by decide, by decide⟩)

end RDHCP
